import Mathlib

/-!
Verification of the hebrew-root-mini-crossword core.

Shallow embedding conventions:
* a JavaScript string is a `List Char` (Hebrew letters are single UTF-16
  code units, so `split('')` agrees with the character list);
* a grid cell is a string (`List Char`), a grid is a list of rows of cells;
* JavaScript `Set` values are modelled as lists with membership tests;
* 32-bit integer arithmetic (`<< 5`, `& hash`) is modelled on `Int` with an
  explicit wrap into the signed 32-bit range;
* the generator's backtracking loop is modelled with an explicit fuel
  argument (the search from cell index `n` needs at most `9 - n + 1` steps,
  so any fuel of at least 7 from the entry point `n = 3` is enough);
* fallible code (`getPuzzleForDate` crashing on an empty tier) returns
  `Option`.
-/

/-! ### src/lib/utils/hebrew.ts -/

/-- `normalizeLetter` from hebrew.ts: the `FINAL_TO_REGULAR` table lookup,
identity on any letter that is not one of the five final forms. -/
def normalizeLetter (c : Char) : Char :=
  if c = 'ך' then 'כ'
  else if c = 'ם' then 'מ'
  else if c = 'ן' then 'נ'
  else if c = 'ף' then 'פ'
  else if c = 'ץ' then 'צ'
  else c

/-- `normalizeHebrew` from hebrew.ts: per-character normalization. -/
def normalizeHebrew (t : List Char) : List Char :=
  t.map normalizeLetter

/-! ### src/lib/roots.ts (data shape) and src/lib/utils/validator.ts -/

/-- One dictionary entry of roots.ts: `{ root, meaning }`. -/
structure RootEntry where
  root : List Char
  meaning : String
deriving DecidableEq

/-- `roots.filter(r => [...r.root].length === 3)` from validator.ts. -/
def threeLetterRoots (roots : List RootEntry) : List RootEntry :=
  roots.filter (fun r => r.root.length == 3)

/-- `validRoots = new Set(threeLetterRoots.map(r => normalizeHebrew(r.root)))`,
modelled as the list of normalized roots with membership as `Set.has`. -/
def validRoots (roots : List RootEntry) : List (List Char) :=
  (threeLetterRoots roots).map (fun r => normalizeHebrew r.root)

/-- `isValidRoot` from validator.ts: `validRoots.has(normalizeHebrew(root))`. -/
def isValidRoot (roots : List RootEntry) (t : List Char) : Bool :=
  decide (normalizeHebrew t ∈ validRoots roots)

/-- A play-time grid: rows of string cells (`string[][]`). -/
abbrev Grid := List (List (List Char))

/-- `grid[r][c]` (both indices assumed in range when used). -/
def cellAt (grid : Grid) (r c : Nat) : List Char :=
  (grid.getD r []).getD c []

/-- `grid[i].join('')`. -/
def rowStr (grid : Grid) (i : Nat) : List Char :=
  (grid.getD i []).flatten

/-- `grid[0][c] + grid[1][c] + grid[2][c]`. -/
def colStr (grid : Grid) (c : Nat) : List Char :=
  cellAt grid 0 c ++ cellAt grid 1 c ++ cellAt grid 2 c

/-- `validateGrid` from validator.ts: shape guard, then all three rows and
all three columns must be valid roots. -/
def validateGrid (roots : List RootEntry) (grid : Grid) : Bool :=
  if grid.length != 3 || grid.any (fun row => row.length != 3) then
    false
  else
    ((List.range 3).all fun i => isValidRoot roots (rowStr grid i)) &&
    ((List.range 3).all fun c => isValidRoot roots (colStr grid c))

/-- `grid[row].slice(0, col).join('')` in `getHintsForPosition`. -/
def rowPre (grid : Grid) (row col : Nat) : List Char :=
  ((grid.getD row []).take col).flatten

/-- `grid[row].slice(col + 1).join('')`. -/
def rowSuf (grid : Grid) (row col : Nat) : List Char :=
  ((grid.getD row []).drop (col + 1)).flatten

/-- `grid.slice(0, row).map(r => r[col]).join('')`. -/
def colPre (grid : Grid) (row col : Nat) : List Char :=
  ((grid.take row).map (fun r => r.getD col [])).flatten

/-- `grid.slice(row + 1).map(r => r[col]).join('')`. -/
def colSuf (grid : Grid) (row col : Nat) : List Char :=
  ((grid.drop (row + 1)).map (fun r => r.getD col [])).flatten

/-- `getHintsForPosition` from validator.ts: letters taken at index `col`
from roots matching the row's prefix/suffix pattern, kept only when also
produced at index `row` by some root matching the column's pattern. -/
def getHintsForPosition (roots : List RootEntry) (grid : Grid)
    (row col : Nat) : List Char :=
  let possibleLetters := (validRoots roots).filterMap fun rt =>
    if (rowPre grid row col).isPrefixOf rt && (rowSuf grid row col).isSuffixOf rt then
      rt.get? col
    else none
  let colPossible := (validRoots roots).filterMap fun rt =>
    if (colPre grid row col).isPrefixOf rt && (colSuf grid row col).isSuffixOf rt then
      rt.get? row
    else none
  possibleLetters.filter (fun letter => decide (letter ∈ colPossible))

/-- `getSolutionKey` from validator.ts:
`grid.map(row => normalizeHebrew(row.join(''))).join('|')`. -/
def getSolutionKey (grid : Grid) : List Char :=
  List.intercalate ['|'] (grid.map (fun row => normalizeHebrew row.flatten))

/-! ### src/lib/utils/puzzle-selector.ts -/

/-- A record of puzzles.json / puzzle-selector.ts. -/
structure Puzzle where
  id : Nat
  grid : List (List Char)
  difficulty : Nat
  prefilledCells : List (Nat × Nat)
  dayDifficulty : Nat
deriving DecidableEq

/-- The `{puzzle, prefilled}` pair returned by the selector. -/
structure PuzzleWithClues where
  puzzle : Puzzle
  prefilled : List (Nat × Nat)
deriving DecidableEq

/-- Wrap an integer into the signed 32-bit range, as JavaScript's `| 0` and
`& hash` coercions do. -/
def toInt32 (n : Int) : Int :=
  (n + 2 ^ 31) % 2 ^ 32 - 2 ^ 31

/-- `simpleHash` from puzzle-selector.ts over the string's char codes:
`hash = ((hash << 5) - hash) + char; hash = hash & hash` per character
(`<< 5` itself truncates to 32 bits), then `Math.abs`. -/
def simpleHash (s : List Nat) : Nat :=
  (s.foldl (fun (hash : Int) (c : Nat) => toInt32 (toInt32 (hash * 32) - hash + (c : Int))) 0).natAbs

/-- `getDifficultyForDay`: Sunday (0) maps to tier 7, other days to themselves. -/
def getDifficultyForDay (dayOfWeek : Nat) : Nat :=
  if dayOfWeek = 0 then 7 else dayOfWeek

/-- `getPuzzleForDate` from puzzle-selector.ts, parameterized by the bank and
by the date's two used attributes (ISO date string char codes, day of week).
The JavaScript crash on an empty tier (indexing past the end and then
dereferencing `undefined`) is modelled as `none`. -/
def getPuzzleForDate (bank : List Puzzle) (dateStr : List Nat)
    (dayOfWeek : Nat) : Option PuzzleWithClues :=
  let dayDifficulty := getDifficultyForDay dayOfWeek
  let puzzlesForDay := bank.filter (fun p => p.dayDifficulty == dayDifficulty)
  let hash := simpleHash dateStr
  let puzzleIndex := hash % puzzlesForDay.length
  (puzzlesForDay.get? puzzleIndex).map (fun p => ⟨p, p.prefilledCells⟩)

/-- The spec's reference hash: `hash = hash * 31 + charCode` per character in
32-bit arithmetic, made non-negative. -/
def specHash (s : List Nat) : Nat :=
  (s.foldl (fun (hash : Int) (c : Nat) => toInt32 (hash * 31 + (c : Int))) 0).natAbs

/-- The spec's reference selector: tier from the day of week, bank filtered
to the tier in bank order, entry at `specHash mod count`. -/
def getPuzzleForDateSpec (bank : List Puzzle) (dateStr : List Nat)
    (dayOfWeek : Nat) : Option PuzzleWithClues :=
  let tier := if dayOfWeek = 0 then 7 else dayOfWeek
  let ties := bank.filter (fun p => p.dayDifficulty == tier)
  ((ties.get? (specHash dateStr % ties.length)).map
    (fun p => ⟨p, p.prefilledCells⟩) : Option PuzzleWithClues)

/-! ### scripts/generate-puzzles.js -/

/-- `rootSet` of the generator script: the set of normalized three-letter
roots (same construction as the validator's `validRoots`). -/
def rootSet (roots : List RootEntry) : List (List Char) :=
  (threeLetterRoots roots).map (fun r => normalizeHebrew r.root)

/-- `isValidGrid` of the generator script: every row and column, normalized,
is in `rootSet` (no shape guard: the script's grids are always 3×3). -/
def isValidGrid (roots : List RootEntry) (grid : Grid) : Bool :=
  ((List.range 3).all fun i =>
    decide (normalizeHebrew (rowStr grid i) ∈ rootSet roots)) &&
  ((List.range 3).all fun c =>
    decide (normalizeHebrew (colStr grid c) ∈ rootSet roots))

/-- `getUniqueLettersFromRoots`: every letter of every three-letter root,
first occurrence order, deduplicated (a JavaScript `Set`). -/
def getUniqueLettersFromRoots (roots : List RootEntry) : List Char :=
  (threeLetterRoots roots).foldl
    (fun acc r => r.root.foldl
      (fun acc c => if c ∈ acc then acc else acc ++ [c]) acc) []

/-- `grid[row][col] = v`. -/
def setCell (grid : Grid) (row col : Nat) (v : List Char) : Grid :=
  grid.set row ((grid.getD row []).set col v)

/-- The `columnPrefix` loop in `isPotentiallyValid`: cells of column `col`
from row 0 down to `row`, stopping at the first empty cell, joined. -/
def columnPreStr (grid : Grid) (row col : Nat) : List Char :=
  (((List.range (row + 1)).map (fun r => cellAt grid r col)).takeWhile
    (fun cell => !cell.isEmpty)).flatten

/-- `isPotentiallyValid` of the generator script: a finished row must be a
root; a finished column must be a root; a non-empty partial column (from a
row index above 0) must be a prefix of some three-letter root. -/
def isPotentiallyValid (roots : List RootEntry) (grid : Grid)
    (row col : Nat) : Bool :=
  (col != 2 || decide (normalizeHebrew (rowStr grid row) ∈ rootSet roots)) &&
  (row != 2 || decide (normalizeHebrew (colStr grid col) ∈ rootSet roots)) &&
  (row == 0 ||
    (let p := columnPreStr grid row col
     p.isEmpty ||
       (threeLetterRoots roots).any fun rt =>
         (normalizeHebrew p).isPrefixOf (normalizeHebrew rt.root)))

/-- The `backtrack` closure of `generatePuzzle`, with the cell position
`(row, col)` encoded row-major as `n = 3 * row + col` (the script's
`nextRow`/`nextCol` stepping is exactly `n + 1`), and recursion bounded by
an explicit fuel (the search from cell `n` needs at most `10 - n` fuel).
The letter loop with its early return is `List.findSome?`; resetting the
cell to `''` before returning false is mutation bookkeeping with no
counterpart on immutable grids. -/
def backtrack (roots : List RootEntry) : Nat → Grid → Nat → Option Grid
  | 0, _, _ => none
  | fuel + 1, grid, n =>
    if 9 ≤ n then
      if isValidGrid roots grid then some grid else none
    else
      (getUniqueLettersFromRoots roots).findSome? fun letter =>
        let g := setCell grid (n / 3) (n % 3) [letter]
        if isPotentiallyValid roots g (n / 3) (n % 3) then
          backtrack roots fuel g (n + 1)
        else
          none

/-- `generatePuzzle` of the generator script, with the random choice of the
seed root replaced by an arbitrary index `k`: row 0 is seeded with that
root's letters, and the backtracking fills cells 3..8 (`backtrack(1, 0)`). -/
def generatePuzzle (roots : List RootEntry) (k : Nat) : Option Grid :=
  let emptyGrid : Grid := [[[], [], []], [[], [], []], [[], [], []]]
  let randomRoot := (threeLetterRoots roots).getD k ⟨[], ""⟩
  let grid := emptyGrid.set 0 (randomRoot.root.map (fun c => [c]))
  backtrack roots 9 grid 3

/-- `getPrefilledCount`: the clue-count table `{1:6, 2:6, 3:5, 4:5, 5:4,
6:4, 7:4}` with default 5 for unmapped tiers. -/
def getPrefilledCount (difficulty : Nat) : Nat :=
  match difficulty with
  | 1 => 6 | 2 => 6 | 3 => 5 | 4 => 5 | 5 => 4 | 6 => 4 | 7 => 4
  | _ => 5

/-- `allPositions`: the 9 grid coordinates in row-major order. -/
def allPositions : List (Nat × Nat) :=
  (List.range 3).flatMap (fun row => (List.range 3).map (fun col => (row, col)))

/-- One step of `seededRandom`: `seed = (seed * 9301 + 49297) % 233280`. -/
def lcgNext (seed : Nat) : Nat :=
  (seed * 9301 + 49297) % 233280

/-- The destructuring swap `[l[i], l[j]] = [l[j], l[i]]`. -/
def swapL (l : List (Nat × Nat)) (i j : Nat) : List (Nat × Nat) :=
  (l.set i (l.getD j (0, 0))).set j (l.getD i (0, 0))

/-- The Fisher-Yates loop of `generatePrefilledCells`: `i` runs downward
while `i > 0`; each step advances the seed and swaps index `i` with
`j = floor(seededRandom() * (i + 1))` (the floor of `seed / 233280 * (i+1)`,
computed here in exact arithmetic). -/
def fyLoop : List (Nat × Nat) → Nat → Nat → List (Nat × Nat)
  | l, _, 0 => l
  | l, seed, i + 1 =>
    let s := lcgNext seed
    let j := s * (i + 2) / 233280
    fyLoop (swapL l (i + 1) j) s i

/-- `generatePrefilledCells(count, seed)`: shuffle the 9 positions with the
seeded Fisher-Yates pass, keep the first `count`. -/
def generatePrefilledCells (count : Nat) (seed : Nat) : List (Nat × Nat) :=
  (fyLoop allPositions seed (allPositions.length - 1)).take count

/-! ### Helper lemmas -/

lemma normalizeLetter_cases (c : Char) :
    (c = 'ך' ∨ c = 'ם' ∨ c = 'ן' ∨ c = 'ף' ∨ c = 'ץ') ∨ normalizeLetter c = c := by
  unfold normalizeLetter
  split_ifs <;> tauto

lemma normalizeLetter_idem (c : Char) :
    normalizeLetter (normalizeLetter c) = normalizeLetter c := by
  rcases normalizeLetter_cases c with h | h
  · rcases h with h | h | h | h | h <;> subst h <;> decide
  · rw [h, h]

lemma normalizeHebrew_idem (t : List Char) :
    normalizeHebrew (normalizeHebrew t) = normalizeHebrew t := by
  unfold normalizeHebrew
  rw [List.map_map]
  exact List.map_congr_left fun c _ => normalizeLetter_idem c

lemma normalizeHebrew_length (t : List Char) :
    (normalizeHebrew t).length = t.length :=
  List.length_map t normalizeLetter

lemma isValidRoot_mem (roots : List RootEntry) (t : List Char) :
    isValidRoot roots t = true ↔ normalizeHebrew t ∈ validRoots roots := by
  simp [isValidRoot]

lemma toInt32_add_left (x y : Int) : toInt32 (toInt32 x + y) = toInt32 (x + y) := by
  unfold toInt32
  omega

lemma toInt32_step (h c : Int) :
    toInt32 (toInt32 (h * 32) - h + c) = toInt32 (h * 31 + c) := by
  have e1 : toInt32 (h * 32) - h + c = toInt32 (h * 32) + (c - h) := by ring
  rw [e1, toInt32_add_left]
  congr 1
  ring

lemma simpleHash_eq_specHash (s : List Nat) : simpleHash s = specHash s := by
  unfold simpleHash specHash
  congr 1
  suffices hgen : ∀ (h : Int),
      s.foldl (fun (hash : Int) (c : Nat) => toInt32 (toInt32 (hash * 32) - hash + (c : Int))) h =
      s.foldl (fun (hash : Int) (c : Nat) => toInt32 (hash * 31 + (c : Int))) h from hgen 0
  induction s with
  | nil => intro h; rfl
  | cons c rest ih =>
    intro h
    rw [List.foldl_cons, List.foldl_cons, toInt32_step]
    exact ih _

lemma cons_set_perm {α : Type} (a : α) (t : List α) (k : Nat)
    (hk : k < t.length) (d : α) :
    ((t.getD k d) :: t.set k a).Perm (a :: t) := by
  have hget : t.getD k d = t.get ⟨k, hk⟩ := by
    rw [List.getD_eq_getElem t d hk, List.get_eq_getElem]
  have ht : t.take k ++ t.get ⟨k, hk⟩ :: t.drop (k + 1) = t := by
    rw [show t.get ⟨k, hk⟩ :: t.drop (k + 1) = t.drop k from
      List.getElem_cons_drop t k hk]
    exact List.take_append_drop k t
  rw [hget, List.set_eq_take_cons_drop a hk]
  refine List.Perm.trans (List.Perm.cons _ List.perm_middle) ?_
  refine List.Perm.trans (List.Perm.swap _ _ _) ?_
  refine List.Perm.trans (List.Perm.cons _ List.perm_middle.symm) ?_
  rw [ht]

lemma set_set_perm {α : Type} (d : α) :
    ∀ (l : List α) (i j : Nat), i < l.length → j < l.length →
      ((l.set i (l.getD j d)).set j (l.getD i d)).Perm l := by
  intro l
  induction l with
  | nil =>
    intro i j hi _
    exact absurd hi (by simp)
  | cons a t ih =>
    intro i j hi hj
    match i, j with
    | 0, 0 =>
      simp
    | 0, k + 1 =>
      simp only [List.getD_cons_succ, List.getD_cons_zero, List.set_cons_zero,
        List.set_cons_succ]
      exact cons_set_perm a t k (by simpa using hj) d
    | k + 1, 0 =>
      simp only [List.getD_cons_succ, List.getD_cons_zero, List.set_cons_zero,
        List.set_cons_succ]
      exact cons_set_perm a t k (by simpa using hi) d
    | i' + 1, j' + 1 =>
      simp only [List.getD_cons_succ, List.set_cons_succ]
      exact List.Perm.cons a (ih i' j' (by simpa using hi) (by simpa using hj))

lemma swapL_length (l : List (Nat × Nat)) (i j : Nat) :
    (swapL l i j).length = l.length := by
  simp [swapL]

lemma swapL_perm (l : List (Nat × Nat)) (i j : Nat)
    (hi : i < l.length) (hj : j < l.length) : (swapL l i j).Perm l :=
  set_set_perm (0, 0) l i j hi hj

lemma lcgNext_lt (s : Nat) : lcgNext s < 233280 :=
  Nat.mod_lt _ (by decide)

lemma fyLoop_perm : ∀ (i : Nat) (l : List (Nat × Nat)) (s : Nat),
    i < l.length → (fyLoop l s i).Perm l := by
  intro i
  induction i with
  | zero =>
    intro l s _
    exact List.Perm.refl l
  | succ i ih =>
    intro l s hi
    have hj : lcgNext s * (i + 2) / 233280 < l.length := by
      have h1 : lcgNext s * (i + 2) < 233280 * (i + 2) :=
        (Nat.mul_lt_mul_right (by omega)).mpr (lcgNext_lt s)
      have h2 : lcgNext s * (i + 2) / 233280 < i + 2 :=
        Nat.div_lt_of_lt_mul (by omega)
      omega
    have hrec := ih (swapL l (i + 1) (lcgNext s * (i + 2) / 233280)) (lcgNext s)
      (by rw [swapL_length]; omega)
    exact List.Perm.trans hrec
      (swapL_perm l (i + 1) (lcgNext s * (i + 2) / 233280) hi hj)

lemma getPrefilledCount_le (d : Nat) : getPrefilledCount d ≤ 6 := by
  unfold getPrefilledCount
  rcases d with _ | _ | _ | _ | _ | _ | _ | _ | d <;> simp

lemma generatePrefilledCells_props (count seed : Nat) (hcount : count ≤ 9) :
    (generatePrefilledCells count seed).length = count ∧
    (generatePrefilledCells count seed).Nodup ∧
    ∀ p ∈ generatePrefilledCells count seed, p ∈ allPositions := by
  have hperm : (fyLoop allPositions seed (allPositions.length - 1)).Perm allPositions :=
    fyLoop_perm (allPositions.length - 1) allPositions seed (by decide)
  refine ⟨?_, ?_, ?_⟩
  · rw [generatePrefilledCells, List.length_take, hperm.length_eq]
    simp only [show allPositions.length = 9 from rfl]
    omega
  · exact List.Nodup.sublist (List.take_sublist _ _)
      (hperm.nodup_iff.mpr (by decide))
  · intro p hp
    exact hperm.mem_iff.mp (List.mem_of_mem_take hp)

lemma backtrack_sound : ∀ (fuel : Nat) (roots : List RootEntry) (grid : Grid)
    (n : Nat) (g : Grid),
    backtrack roots fuel grid n = some g → isValidGrid roots g = true := by
  intro fuel
  induction fuel with
  | zero =>
    intro roots grid n g h
    simp [backtrack] at h
  | succ fuel ih =>
    intro roots grid n g h
    rw [backtrack] at h
    split at h
    · split at h
      · cases h
        assumption
      · cases h
    · obtain ⟨l₁, letter, l₂, _, hf, _⟩ := List.findSome?_eq_some_iff.mp h
      dsimp only at hf
      split at hf
      · exact ih roots _ (n + 1) g hf
      · cases hf

/-- A small concrete dictionary (the spec's end-to-end scenario A): the grid
with rows אבד, בנה, דהש has those same roots as its columns. -/
def exRoots : List RootEntry :=
  [⟨['א', 'ב', 'ד'], "to lose"⟩, ⟨['ב', 'נ', 'ה'], "to build"⟩,
   ⟨['ד', 'ה', 'ש'], "example"⟩]

/-- The solved grid over `exRoots`. -/
def exGrid : Grid :=
  [[['א'], ['ב'], ['ד']], [['ב'], ['נ'], ['ה']], [['ד'], ['ה'], ['ש']]]

/-! ### Claim theorems -/

/-- C7: letter and text normalization is idempotent and total: each letter
maps to exactly one canonical letter, `normalizeLetter` is idempotent,
`normalizeHebrew` is idempotent and preserves the length and the order of
its input (position `i` of the output is the normalization of position `i`
of the input). -/
theorem normalization_idempotent_total :
    (∀ c : Char, normalizeLetter (normalizeLetter c) = normalizeLetter c) ∧
    (∀ t : List Char, normalizeHebrew (normalizeHebrew t) = normalizeHebrew t) ∧
    (∀ t : List Char, (normalizeHebrew t).length = t.length) ∧
    (∀ (t : List Char) (i : Nat),
      (normalizeHebrew t).get? i = (t.get? i).map normalizeLetter) := by
  refine ⟨normalizeLetter_idem, normalizeHebrew_idem, normalizeHebrew_length, ?_⟩
  intro t i
  simp [normalizeHebrew, List.get?_eq_getElem?]

/-- C6: `isValidRoot(text)` is true iff `normalize(text)` is in the set of
normalized three-letter dictionary roots; it is true on every dictionary
root of exactly three letters, and it is invariant under normalizing the
argument first. -/
theorem isValidRoot_spec (roots : List RootEntry) (t : List Char)
    (r : RootEntry) (hr : r ∈ roots) (hlen : r.root.length = 3) :
    (isValidRoot roots t = true ↔ normalizeHebrew t ∈ validRoots roots) ∧
    isValidRoot roots r.root = true ∧
    isValidRoot roots (normalizeHebrew t) = isValidRoot roots t := by
  refine ⟨isValidRoot_mem roots t, ?_, ?_⟩
  · rw [isValidRoot_mem]
    simp only [validRoots, threeLetterRoots, List.mem_map, List.mem_filter]
    exact ⟨r, ⟨hr, by simp [hlen]⟩, rfl⟩
  · simp [isValidRoot, normalizeHebrew_idem]

/-- Witness for C6 at a concrete dictionary and a concrete text containing
a final form. -/
theorem isValidRoot_spec_witness :
    ((⟨['א', 'ב', 'ד'], "to lose"⟩ : RootEntry) ∈ exRoots ∧
      (['א', 'ב', 'ד'] : List Char).length = 3) ∧
    (isValidRoot exRoots ['ך', 'ב', 'ד'] = true ↔
      normalizeHebrew ['ך', 'ב', 'ד'] ∈ validRoots exRoots) ∧
    isValidRoot exRoots ['א', 'ב', 'ד'] = true ∧
    isValidRoot exRoots (normalizeHebrew ['ך', 'ב', 'ד']) =
      isValidRoot exRoots ['ך', 'ב', 'ד'] :=
  ⟨⟨by decide, by decide⟩,
    isValidRoot_spec exRoots ['ך', 'ב', 'ד'] ⟨['א', 'ב', 'ד'], "to lose"⟩
      (by decide) (by decide)⟩

/-- C2: on a well-formed 3×3 grid, `validateGrid` is true iff all three row
strings and all three column strings are valid roots; replacing a row of a
solved grid by a non-root makes it false. The embedding is a pure function,
so the absence of side effects is by construction. -/
theorem validateGrid_spec (roots : List RootEntry)
    (a b c d e f g h i r1 r2 r3 : List Char)
    (hrep : isValidRoot roots (r1 ++ r2 ++ r3) = false) :
    (validateGrid roots [[a, b, c], [d, e, f], [g, h, i]] = true ↔
      (isValidRoot roots (a ++ b ++ c) = true ∧
       isValidRoot roots (d ++ e ++ f) = true ∧
       isValidRoot roots (g ++ h ++ i) = true ∧
       isValidRoot roots (a ++ d ++ g) = true ∧
       isValidRoot roots (b ++ e ++ h) = true ∧
       isValidRoot roots (c ++ f ++ i) = true)) ∧
    validateGrid roots [[r1, r2, r3], [d, e, f], [g, h, i]] = false ∧
    validateGrid roots [[a, b, c], [r1, r2, r3], [g, h, i]] = false ∧
    validateGrid roots [[a, b, c], [d, e, f], [r1, r2, r3]] = false := by
  have hrep' : isValidRoot roots (r1 ++ (r2 ++ r3)) = false := by
    rwa [← List.append_assoc]
  refine ⟨?_, ?_, ?_, ?_⟩
  · simp [validateGrid, rowStr, colStr, cellAt,
      show List.range 3 = [0, 1, 2] from rfl]
    tauto
  all_goals simp [validateGrid, rowStr, colStr, cellAt,
    show List.range 3 = [0, 1, 2] from rfl, hrep']

/-- Witness for C2: the solved scenario-A grid validates, and replacing its
first row by the non-root אאא invalidates it. -/
theorem validateGrid_spec_witness :
    isValidRoot exRoots (['א'] ++ ['א'] ++ ['א']) = false ∧
    (validateGrid exRoots
        [[['א'], ['ב'], ['ד']], [['ב'], ['נ'], ['ה']], [['ד'], ['ה'], ['ש']]] = true ↔
      (isValidRoot exRoots (['א'] ++ ['ב'] ++ ['ד']) = true ∧
       isValidRoot exRoots (['ב'] ++ ['נ'] ++ ['ה']) = true ∧
       isValidRoot exRoots (['ד'] ++ ['ה'] ++ ['ש']) = true ∧
       isValidRoot exRoots (['א'] ++ ['ב'] ++ ['ד']) = true ∧
       isValidRoot exRoots (['ב'] ++ ['נ'] ++ ['ה']) = true ∧
       isValidRoot exRoots (['ד'] ++ ['ה'] ++ ['ש']) = true)) ∧
    validateGrid exRoots
      [[['א'], ['א'], ['א']], [['ב'], ['נ'], ['ה']], [['ד'], ['ה'], ['ש']]] = false :=
  ⟨by decide,
    (validateGrid_spec exRoots ['א'] ['ב'] ['ד'] ['ב'] ['נ'] ['ה'] ['ד'] ['ה'] ['ש']
      ['א'] ['א'] ['א'] (by decide)).1,
    (validateGrid_spec exRoots ['א'] ['ב'] ['ד'] ['ב'] ['נ'] ['ה'] ['ד'] ['ה'] ['ש']
      ['א'] ['א'] ['א'] (by decide)).2.1⟩

/-- C8: `getSolutionKey` is deterministic, and on well-formed 3×3 grids of
single-letter cells two keys are equal iff the grids agree cell-wise after
letter normalization. -/
theorem getSolutionKey_spec :
    (∀ grid : Grid, getSolutionKey grid = getSolutionKey grid) ∧
    (∀ a b c d e f g h i a' b' c' d' e' f' g' h' i' : Char,
      getSolutionKey [[[a], [b], [c]], [[d], [e], [f]], [[g], [h], [i]]] =
        getSolutionKey [[[a'], [b'], [c']], [[d'], [e'], [f']], [[g'], [h'], [i']]] ↔
      (normalizeLetter a = normalizeLetter a' ∧
       normalizeLetter b = normalizeLetter b' ∧
       normalizeLetter c = normalizeLetter c' ∧
       normalizeLetter d = normalizeLetter d' ∧
       normalizeLetter e = normalizeLetter e' ∧
       normalizeLetter f = normalizeLetter f' ∧
       normalizeLetter g = normalizeLetter g' ∧
       normalizeLetter h = normalizeLetter h' ∧
       normalizeLetter i = normalizeLetter i')) := by
  refine ⟨fun _ => rfl, ?_⟩
  intro a b c d e f g h i a' b' c' d' e' f' g' h' i'
  show ([normalizeLetter a, normalizeLetter b, normalizeLetter c, '|',
         normalizeLetter d, normalizeLetter e, normalizeLetter f, '|',
         normalizeLetter g, normalizeLetter h, normalizeLetter i] : List Char) =
       [normalizeLetter a', normalizeLetter b', normalizeLetter c', '|',
        normalizeLetter d', normalizeLetter e', normalizeLetter f', '|',
        normalizeLetter g', normalizeLetter h', normalizeLetter i'] ↔ _
  simp

/-- C1: every grid the generator returns is fully valid: each of its 3 rows
and each of its 3 columns, after normalization, is a member of the set of
normalized three-letter dictionary roots (for any dictionary and any choice
of seed root). -/
theorem generatePuzzle_valid (roots : List RootEntry) (k : Nat) (g : Grid)
    (h : generatePuzzle roots k = some g) :
    (∀ i < 3, normalizeHebrew (rowStr g i) ∈ rootSet roots) ∧
    (∀ j < 3, normalizeHebrew (colStr g j) ∈ rootSet roots) := by
  unfold generatePuzzle at h
  have hv : isValidGrid roots g = true := backtrack_sound 9 roots _ 3 g h
  simpa only [isValidGrid, Bool.and_eq_true, List.all_eq_true, List.mem_range,
    decide_eq_true_eq] using hv

/-- Witness for C1: on the scenario-A dictionary with seed root index 0 the
generator returns the solved grid, whose lines are dictionary roots. -/
theorem generatePuzzle_valid_witness :
    generatePuzzle exRoots 0 = some exGrid ∧
    normalizeHebrew (rowStr exGrid 0) ∈ rootSet exRoots ∧
    normalizeHebrew (colStr exGrid 2) ∈ rootSet exRoots :=
  ⟨by decide,
    (generatePuzzle_valid exRoots 0 exGrid (by decide)).1 0 (by decide),
    (generatePuzzle_valid exRoots 0 exGrid (by decide)).2 2 (by decide)⟩

/-- C3 counterexample: the clue-count table maps day-tier 7 to 4 prefilled
clues, not to the default 5 the claim states. -/
theorem getPrefilledCount_tier7 : getPrefilledCount 7 ≠ 5 ∧ getPrefilledCount 7 = 4 := by
  constructor
  · decide
  · rfl

/-- C3 (amended): tiers 1-2 get 6 clues, tiers 3-4 get 5, tiers 5-7 get 4,
and any unmapped tier gets the default 5; for every tier the selected
prefilled positions are exactly that many distinct positions among the 9
grid coordinates. -/
theorem prefilled_cells_spec (tier : Nat) (h : tier = 0 ∨ 8 ≤ tier) :
    (getPrefilledCount 1 = 6 ∧ getPrefilledCount 2 = 6 ∧
     getPrefilledCount 3 = 5 ∧ getPrefilledCount 4 = 5 ∧
     getPrefilledCount 5 = 4 ∧ getPrefilledCount 6 = 4 ∧
     getPrefilledCount 7 = 4) ∧
    getPrefilledCount tier = 5 ∧
    (∀ d seed : Nat,
      (generatePrefilledCells (getPrefilledCount d) seed).length =
        getPrefilledCount d ∧
      (generatePrefilledCells (getPrefilledCount d) seed).Nodup ∧
      ∀ p ∈ generatePrefilledCells (getPrefilledCount d) seed,
        p ∈ allPositions) := by
  refine ⟨by decide, ?_, ?_⟩
  · rcases h with h | h
    · subst h; rfl
    · unfold getPrefilledCount
      rcases tier with _ | _ | _ | _ | _ | _ | _ | _ | t <;> first | omega | rfl
  · intro d seed
    exact generatePrefilledCells_props (getPrefilledCount d) seed
      (le_trans (getPrefilledCount_le d) (by omega))

/-- Witness for C3 at the unmapped tier 42 and at tier 3 with seed 7. -/
theorem prefilled_cells_spec_witness :
    ((42 : Nat) = 0 ∨ 8 ≤ 42) ∧ getPrefilledCount 42 = 5 ∧
    (generatePrefilledCells (getPrefilledCount 3) 7).length = getPrefilledCount 3 ∧
    (generatePrefilledCells (getPrefilledCount 3) 7).Nodup :=
  ⟨Or.inr (by decide), (prefilled_cells_spec 42 (Or.inr (by decide))).2.1,
    ((prefilled_cells_spec 42 (Or.inr (by decide))).2.2 3 7).1,
    ((prefilled_cells_spec 42 (Or.inr (by decide))).2.2 3 7).2.1⟩

/-- C4: `getPuzzleForDate` equals the spec's reference definition (tier from
the day of week with Sunday mapping to 7, bank filtered to the tier in bank
order, entry at the non-negative 32-bit rolling `hash*31 + charCode` value
of the ISO date string modulo the tier size), and repeated calls on the
same bank and date give the same result. -/
theorem getPuzzleForDate_matches_reference :
    (∀ (bank : List Puzzle) (dateStr : List Nat) (dayOfWeek : Nat),
      getPuzzleForDate bank dateStr dayOfWeek =
        getPuzzleForDateSpec bank dateStr dayOfWeek) ∧
    (∀ (bank : List Puzzle) (dateStr : List Nat) (dayOfWeek : Nat),
      getPuzzleForDate bank dateStr dayOfWeek =
        getPuzzleForDate bank dateStr dayOfWeek) := by
  refine ⟨?_, fun _ _ _ => rfl⟩
  intro bank dateStr dayOfWeek
  unfold getPuzzleForDate getPuzzleForDateSpec getDifficultyForDay
  rw [simpleHash_eq_specHash]

/-- C9: when the bank has no puzzle of the tier computed for the date, the
selector fails (the JavaScript code dereferences `undefined`; the embedding
returns `none`) instead of falling back to a different tier. -/
theorem getPuzzleForDate_empty_tier (bank : List Puzzle) (dateStr : List Nat)
    (dayOfWeek : Nat)
    (h : ∀ p ∈ bank, p.dayDifficulty ≠ getDifficultyForDay dayOfWeek) :
    getPuzzleForDate bank dateStr dayOfWeek = none := by
  have hfil : bank.filter
      (fun p => p.dayDifficulty == getDifficultyForDay dayOfWeek) = [] := by
    rw [List.filter_eq_nil_iff]
    intro p hp
    simpa using h p hp
  simp [getPuzzleForDate, hfil]

/-- Witness for C9: a bank holding only a tier-1 puzzle, asked on a Sunday
(tier 7). -/
theorem getPuzzleForDate_empty_tier_witness :
    (∀ p ∈ ([⟨0, [], 10, [], 1⟩] : List Puzzle),
      p.dayDifficulty ≠ getDifficultyForDay 0) ∧
    getPuzzleForDate [⟨0, [], 10, [], 1⟩] [50, 48, 50, 52] 0 = none :=
  ⟨by decide,
    getPuzzleForDate_empty_tier [⟨0, [], 10, [], 1⟩] [50, 48, 50, 52] 0 (by decide)⟩

/-- The spec's set (a) for `getHintsForPosition`: letters `L` such that some
dictionary root matches the current row with `L` substituted at `col` --
the joined filled cells before `col` as a prefix constraint, the joined
filled cells after `col` as a suffix constraint (empty cells vanish in the
join and so contribute no constraint), and the root carrying `L` at `col`. -/
def specRowLetters (roots : List RootEntry) (grid : Grid)
    (row col : Nat) (letter : Char) : Prop :=
  ∃ rt ∈ validRoots roots,
    rowPre grid row col <+: rt ∧ rowSuf grid row col <:+ rt ∧
      rt.get? col = some letter

/-- The spec's set (b): the analogous constraint along the column, with the
root carrying `L` at position `row` of the column. -/
def specColLetters (roots : List RootEntry) (grid : Grid)
    (row col : Nat) (letter : Char) : Prop :=
  ∃ rt ∈ validRoots roots,
    colPre grid row col <+: rt ∧ colSuf grid row col <:+ rt ∧
      rt.get? row = some letter

/-- C5: `getHintsForPosition` returns exactly the intersection of the row
candidate set and the column candidate set; in particular it is empty when
no root satisfies both constraints. -/
theorem getHintsForPosition_spec (roots : List RootEntry) (grid : Grid)
    (row col : Nat) (letter : Char) :
    letter ∈ getHintsForPosition roots grid row col ↔
      specRowLetters roots grid row col letter ∧
      specColLetters roots grid row col letter := by
  unfold getHintsForPosition specRowLetters specColLetters
  simp only [List.mem_filter, List.mem_filterMap, decide_eq_true_eq]
  constructor
  · rintro ⟨⟨rt, hrt, hsome⟩, rt', hrt', hsome'⟩
    constructor
    · by_cases hc :
        ((rowPre grid row col).isPrefixOf rt && (rowSuf grid row col).isSuffixOf rt) = true
      · rw [if_pos hc] at hsome
        rw [Bool.and_eq_true, List.isPrefixOf_iff_prefix,
          List.isSuffixOf_iff_suffix] at hc
        exact ⟨rt, hrt, hc.1, hc.2, hsome⟩
      · rw [if_neg hc] at hsome
        cases hsome
    · by_cases hc :
        ((colPre grid row col).isPrefixOf rt' && (colSuf grid row col).isSuffixOf rt') = true
      · rw [if_pos hc] at hsome'
        rw [Bool.and_eq_true, List.isPrefixOf_iff_prefix,
          List.isSuffixOf_iff_suffix] at hc
        exact ⟨rt', hrt', hc.1, hc.2, hsome'⟩
      · rw [if_neg hc] at hsome'
        cases hsome'
  · rintro ⟨⟨rt, hrt, hpre, hsuf, hat⟩, rt', hrt', hpre', hsuf', hat'⟩
    refine ⟨⟨rt, hrt, ?_⟩, rt', hrt', ?_⟩
    · rw [if_pos (by rw [Bool.and_eq_true, List.isPrefixOf_iff_prefix,
        List.isSuffixOf_iff_suffix]; exact ⟨hpre, hsuf⟩)]
      exact hat
    · rw [if_pos (by rw [Bool.and_eq_true, List.isPrefixOf_iff_prefix,
        List.isSuffixOf_iff_suffix]; exact ⟨hpre', hsuf'⟩)]
      exact hat'

/-- C10: `validateGrid` is total on malformed input: any grid that is not
exactly 3 rows of exactly 3 cells yields `false`, not an error. -/
theorem validateGrid_malformed (roots : List RootEntry) (grid : Grid)
    (h : grid.length ≠ 3 ∨ ∃ row ∈ grid, row.length ≠ 3) :
    validateGrid roots grid = false := by
  unfold validateGrid
  have hcond : (grid.length != 3 || grid.any fun row => row.length != 3) = true := by
    rcases h with h | ⟨row, hrow, hlen⟩
    · simp [h]
    · refine Bool.or_eq_true_iff.mpr (Or.inr ?_)
      simp only [List.any_eq_true]
      exact ⟨row, hrow, by simp [hlen]⟩
  rw [if_pos hcond]

/-- Witness for C10 at two concrete malformed grids. -/
theorem validateGrid_malformed_witness :
    validateGrid exRoots [] = false ∧
    validateGrid exRoots [[['א'], ['ב']], [['ב']], [['ד']]] = false :=
  ⟨validateGrid_malformed exRoots [] (Or.inl (by decide)),
    validateGrid_malformed exRoots [[['א'], ['ב']], [['ב']], [['ד']]]
      (Or.inr ⟨[['א'], ['ב']], by simp, by decide⟩)⟩
